import Mathlib

/-!
Shallow embedding of the extraction / taxonomy-matching / relevance-scoring
core of the fitmycv backend (Python), together with theorems settling the
frozen claims about it.

Source files embedded:
- `backend/app/services/job_scraper.py` (`clean_text`, `extract_requirements`)
- `backend/app/services/skill_extractor.py` (`SKILL_TAXONOMY`, `extract_skills`,
  `extract_experience_level`, `calculate_skill_match_score`)
- `backend/app/services/ai_adapter.py` (`_is_english_job`,
  `analyze_github_repos_for_job` per-repo scoring body)
- `backend/app/api/routes/github.py` (`_get_recommendation`)

Modelling conventions: Python strings are Lean `String`s viewed as their
`List Char` data; `str.lower()` is modelled by `Char.toLower` (ASCII case
mapping, which agrees with Python on ASCII); the regex word class `\w` and
whitespace class `\s` are modelled on their ASCII/known-Unicode members as
noted at each definition.  Python exceptions are explicit `Except` values.
-/

namespace FitMyCV

/-! ## Basic Python string modelling -/

/-- Lowercase a character list (model of Python `str.lower()`; `Char.toLower`
is the ASCII case mapping, which agrees with Python's on ASCII input). -/
def lowerChars (l : List Char) : List Char := l.map Char.toLower

/-- Lowercase a string (Python `str.lower()`). -/
def strLower (s : String) : String := ⟨lowerChars s.data⟩

/-- Contiguous-sublist test on character lists (the empty needle is contained
in everything). -/
def listSub (n : List Char) : List Char → Bool
  | [] => n.isEmpty
  | l@(_ :: t) => n.isPrefixOf l || listSub n t

/-- Python `needle in hay` on strings: contiguous substring test. -/
def substrB (needle hay : String) : Bool := listSub needle.data hay.data

/-- Python `list.index` returning the first index of `x`, or `none` where
Python raises `ValueError`. -/
def pyIndex (x : String) : List String → Option Nat
  | [] => none
  | y :: rest => if y = x then some 0 else (pyIndex x rest).map (· + 1)

/-- The zero-width space U+200B (not whitespace for Python's `\s`/`strip`). -/
def zwsp : Char := Char.ofNat 0x200B

/-- The no-break space U+00A0 (whitespace for Python's `\s`). -/
def nbsp : Char := Char.ofNat 0x00A0

/-- Python's whitespace class for `str` (regex `\s`, `str.strip`): the ASCII
whitespace characters plus the information separators, NEL, and the Unicode
space characters.  U+200B is *not* in this set. -/
def pyWs (c : Char) : Bool :=
  c = ' ' || c = '\t' || c = '\n' || c = Char.ofNat 0x0B || c = Char.ofNat 0x0C ||
  c = '\r' || c = Char.ofNat 0x1C || c = Char.ofNat 0x1D || c = Char.ofNat 0x1E ||
  c = Char.ofNat 0x1F || c = Char.ofNat 0x85 || c = nbsp ||
  c = Char.ofNat 0x1680 ||
  (Char.ofNat 0x2000 ≤ c && c ≤ Char.ofNat 0x200A) ||
  c = Char.ofNat 0x2028 || c = Char.ofNat 0x2029 || c = Char.ofNat 0x202F ||
  c = Char.ofNat 0x205F || c = Char.ofNat 0x3000

/-- Analysis predicate for the cleanup proofs: two neighbouring characters
are not both whitespace. -/
def noWsPair (c d : Char) : Prop := ¬(pyWs c = true ∧ pyWs d = true)

/-! ## job_scraper.py: `JobScraper.clean_text` -/

/-- Model of `re.sub(r'\s+', ' ', text)`, one character at a time: the flag
records whether the previous character was whitespace (i.e. whether we are
inside a run already replaced by a space). -/
def collapseWsAux : Bool → List Char → List Char
  | _, [] => []
  | inRun, c :: rest =>
    if pyWs c then
      if inRun then collapseWsAux true rest
      else ' ' :: collapseWsAux true rest
    else c :: collapseWsAux false rest

/-- Model of `re.sub(r'\s+', ' ', text)`: every maximal run of whitespace
characters becomes a single ASCII space. -/
def collapseWs (l : List Char) : List Char := collapseWsAux false l

/-- Model of `text.replace('\xa0', ' ')` (single-character replace). -/
def replaceNbsp (l : List Char) : List Char :=
  l.map fun c => if c = nbsp then ' ' else c

/-- Model of `text.replace('​', '')` (single-character delete). -/
def removeZwsp (l : List Char) : List Char := l.filter (fun c => c ≠ zwsp)

/-- Model of `str.lstrip()` on the character list. -/
def lstripChars (l : List Char) : List Char := l.dropWhile pyWs

/-- Model of `str.rstrip()` on the character list. -/
def rstripChars (l : List Char) : List Char := ((l.reverse.dropWhile pyWs)).reverse

/-- Model of `str.strip()` on the character list. -/
def stripChars (l : List Char) : List Char := rstripChars (lstripChars l)

/-- `JobScraper.clean_text` (job_scraper.py lines 79-89): empty (falsy) input
short-circuits to `""`; otherwise whitespace runs are collapsed to single
spaces, `'\xa0'` is replaced by a space, `'​'` is removed, and the result
is stripped. -/
def clean_text (text : String) : String :=
  if text.data.isEmpty then ""
  else ⟨stripChars (removeZwsp (replaceNbsp (collapseWs text.data)))⟩

/-! ## skill_extractor.py: regex word-boundary matching -/

/-- The regex word class `\w` (ASCII part: letters, digits, underscore). -/
def wordChar (c : Char) : Bool := c.isAlphanum || c = '_'

/-- Word-character test through an optional context character (out of range
counts as a non-word position). -/
def optWord : Option Char → Bool
  | none => false
  | some c => wordChar c

/-- Does the literal pattern `p` match at the head of `t`, with regex `\b`
boundaries on both sides?  `prev` is the character just before this position
(`none` at the start of the text).  A `\b` holds where exactly one of the two
surrounding positions is a word character. -/
def matchHere (p : List Char) (prev : Option Char) (t : List Char) : Bool :=
  p.isPrefixOf t && (optWord prev != optWord t.head?) &&
    (optWord p.getLast? != optWord ((t.drop p.length).head?))

/-- Scan of `re.search(r'\b' + re.escape(p) + r'\b', t)` for a literal
(escaped) pattern `p`: try every position of `t`. -/
def searchWBAux (p : List Char) (prev : Option Char) (t : List Char) : Bool :=
  match t with
  | [] => false
  | c :: rest => matchHere p prev t || searchWBAux p (some c) rest

/-- `re.search` of a word-bounded literal pattern over a whole text. -/
def searchWB (p : List Char) (t : List Char) : Bool := searchWBAux p none t

/-- Start positions at which the word-bounded literal pattern `p` matches
inside `t` (used to model `re.findall` of such patterns). -/
def occStartsAux (p : List Char) (prev : Option Char) (t : List Char) (i : Nat) :
    List Nat :=
  match t with
  | [] => []
  | c :: rest =>
    (if matchHere p prev t then [i] else []) ++ occStartsAux p (some c) rest (i + 1)

/-- All match start positions of a word-bounded literal pattern. -/
def occStarts (p : List Char) (t : List Char) : List Nat := occStartsAux p none t 0

/-! ## skill_extractor.py: `SKILL_TAXONOMY` -/

/-- The static skill taxonomy (skill_extractor.py lines 18-84), as an ordered
association list category → canonical terms. -/
def SKILL_TAXONOMY : List (String × List String) := [
  ("programming_languages", [
    "python", "java", "javascript", "typescript", "c++", "csharp", "c#",
    "ruby", "php", "swift", "kotlin", "go", "golang", "rust", "scala",
    "r", "matlab", "julia", "dart", "lua", "perl", "haskell", "elixir",
    "clojure", "f#", "groovy", "objective-c", "sql", "html", "css"]),
  ("frameworks_libraries", [
    "react", "angular", "vue", "next.js", "nuxt", "svelte", "solidjs",
    "django", "flask", "fastapi", "spring boot", "spring", "express.js",
    "nest.js", "koa", "laravel", "rails", "ruby on rails", "symfony",
    ".net", "asp.net", "entity framework", "tensorflow", "pytorch", "keras",
    "scikit-learn", "pandas", "numpy", "matplotlib", "seaborn", "plotly",
    "jquery", "bootstrap", "tailwind", "material-ui", "ant design"]),
  ("databases", [
    "postgresql", "mysql", "sqlite", "mongodb", "redis", "elasticsearch",
    "dynamodb", "cassandra", "couchdb", "neo4j", "influxdb", "timescaledb",
    "mariadb", "oracle", "sql server", "firestore", "supabase"]),
  ("cloud_platforms", [
    "aws", "amazon web services", "azure", "gcp", "google cloud platform",
    "heroku", "digitalocean", "linode", "vultr", "alibaba cloud", "ibm cloud"]),
  ("devops_tools", [
    "docker", "kubernetes", "k8s", "terraform", "ansible", "chef", "puppet",
    "jenkins", "gitlab ci", "github actions", "circleci", "travis ci",
    "bamboo", "teamcity", "vagrant", "packer", "helm", "argocd"]),
  ("version_control", [
    "git", "github", "gitlab", "bitbucket", "svn", "mercurial", "cvs"]),
  ("testing", [
    "junit", "pytest", "jest", "mocha", "jasmine", "karma", "selenium",
    "cypress", "playwright", "testng", "rspec", "unittest", "jmeter"]),
  ("methodologies", [
    "agile", "scrum", "kanban", "waterfall", "lean", "tdd", "bdd",
    "devops", "ci/cd", "continuous integration", "continuous deployment",
    "pair programming", "code review", "extreme programming"]),
  ("architectural_patterns", [
    "microservices", "monolith", "serverless", "event-driven", "cqrs",
    "event sourcing", "domain driven design", "ddd", "soa", "mvc", "mvvm",
    "clean architecture", "hexagonal architecture", "rest api", "graphql",
    "grpc", "websocket", "saga pattern", "circuit breaker"]),
  ("data_engineering", [
    "apache spark", "hadoop", "kafka", "airflow", "dbt", "prefect",
    "talend", "informatica", "snowflake", "databricks", "bigquery",
    "redshift", "synapse", "etl", "elt", "data warehouse", "data lake"]),
  ("monitoring_observability", [
    "prometheus", "grafana", "elk", "elasticsearch", "logstash", "kibana",
    "splunk", "datadog", "new relic", "appdynamics", "sentry", "cloudwatch",
    "jaeger", "zipkin", "opentracing", "opentelemetry"]),
  ("project_management", [
    "jira", "confluence", "trello", "asana", "monday.com", "notion",
    "slack", "microsoft teams", "zoom", "basecamp", "clickup"]),
  ("security", [
    "oauth", "jwt", "ssl/tls", "https", "authentication", "authorization",
    "penetration testing", "owasp", "security audit", "hipaa", "gdpr",
    "pci dss", "encryption", "firewall", "vpn", "zero trust"])]

/-- The taxonomy's category names (`SKILL_TAXONOMY.keys()`). -/
def categoryNames : List String := SKILL_TAXONOMY.map (·.1)

/-- All canonical taxonomy terms, across categories. -/
def allTaxonomyTerms : List String := (SKILL_TAXONOMY.map (·.2)).flatten

/-! ## skill_extractor.py: `SkillExtractor._extract_acronyms` -/

/-- The fixed whitelist of recognized technology acronyms
(skill_extractor.py lines 209-215). -/
def commonAcronyms : List String := [
  "API", "REST", "JSON", "XML", "HTML", "CSS", "SQL", "UI", "UX",
  "AWS", "GCP", "Azure", "CI", "CD", "TDD", "BDD", "CRM", "ERP",
  "SaaS", "PaaS", "IaaS", "MVP", "OKR", "KPI", "ROI", "SLA",
  "HTTP", "HTTPS", "FTP", "SSH", "TCP", "UDP", "IP", "DNS",
  "CPU", "GPU", "RAM", "SSD", "HDD", "OS", "IDE", "SDK"]

/-- Accumulating scan for `wordRuns`: `cur` is the reversed run in
progress. -/
def wordRunsAux (cur : List Char) : List Char → List (List Char)
  | [] => if cur.isEmpty then [] else [cur.reverse]
  | c :: rest =>
    if wordChar c then wordRunsAux (c :: cur) rest
    else if cur.isEmpty then wordRunsAux [] rest
    else cur.reverse :: wordRunsAux [] rest

/-- Maximal runs of word characters in a text (the tokens that a
word-bounded character-class pattern can cover in full). -/
def wordRuns (l : List Char) : List (List Char) := wordRunsAux [] l

/-- `SkillExtractor._extract_acronyms` (lines 202-223): `re.findall` of
`r'\b[A-Z]{2,5}\b'` keeps exactly the complete word tokens that are 2-5
uppercase ASCII letters; the hits are intersected with the whitelist. -/
def extractAcronyms (text : List Char) : List String :=
  ((wordRuns text).filter fun r =>
      2 ≤ r.length && r.length ≤ 5 && r.all Char.isUpper)
    |>.map (fun r => (⟨r⟩ : String))
    |>.filter (fun a => commonAcronyms.contains a)

/-! ## skill_extractor.py: `SkillExtractor._extract_compound_terms` -/

/-- Surface text (original casing) of each case-insensitive word-bounded
occurrence of `phrase` in `text`, sliced at offset `off` with length `len`
(`off = 0`, `len = phrase.length` gives the full match; other values model
`re.findall` returning a capture group's surface text). -/
def occSlices (phrase : String) (off len : Nat) (text : List Char) : List String :=
  (occStarts (lowerChars phrase.data) (lowerChars text)).map fun i =>
    (⟨(text.drop (i + off)).take len⟩ : String)

/-- `SkillExtractor._extract_compound_terms` (lines 225-250): the fixed list
of case-insensitive multi-word patterns.  Optional/alternation groups are
expanded into their literal variants; for the patterns that carry a
*capturing* group (`mobil(e)?`, `test(ing)?`, `continuous
(integration|deployment)`, `network(ing)?`), `re.findall` returns the group's
surface text (the empty string when the optional group is absent), which the
slice offsets below reproduce. -/
def extractCompoundTerms (text : List Char) : List String :=
  occSlices "machine learning" 0 16 text ++
  occSlices "deep learning" 0 13 text ++
  occSlices "natural language processing" 0 27 text ++
  occSlices "computer vision" 0 15 text ++
  occSlices "data science" 0 12 text ++
  occSlices "big data" 0 8 text ++
  occSlices "cloud computing" 0 15 text ++
  occSlices "software development" 0 20 text ++
  occSlices "web development" 0 15 text ++
  occSlices "mobile development" 5 1 text ++
  occSlices "mobil development" 0 0 text ++
  occSlices "testing automation" 4 3 text ++
  occSlices "test automation" 0 0 text ++
  occSlices "continuous integration" 11 11 text ++
  occSlices "continuous deployment" 11 10 text ++
  occSlices "version control" 0 15 text ++
  occSlices "database management" 0 19 text ++
  occSlices "system administration" 0 21 text ++
  occSlices "networking security" 7 3 text ++
  occSlices "network security" 0 0 text

/-! ## skill_extractor.py: `SkillExtractor.extract_skills` -/

/-- The taxonomy terms whose word-bounded lowercase pattern occurs in the
lowered text (the `exact_matches` set of `extract_skills`, lines 152-163). -/
def taxonomyExactMatches (textLower : List Char) : List String :=
  (SKILL_TAXONOMY.map fun cs =>
    cs.2.filter fun skill => searchWB (lowerChars skill.data) textLower).flatten

/-- Result of `extract_skills`: the flat skill list and the per-category hits.
The float-valued `confidence_scores` map and the `total_count` set size are
bookkeeping fields no claim touches and are not modelled. -/
structure ExtractResult where
  skills : List String
  categories : List (String × List String)
deriving DecidableEq

/-- `SkillExtractor.extract_skills` (lines 119-200): falsy input yields the
empty result; otherwise skills are the union of the taxonomy exact matches,
the whitelisted acronyms, and the compound-term captures, with any entry
whose lowercase form equals a taxonomy category name removed.  (The spaCy
branch is disabled in the modelled configuration, and the `partial_matches`
bucket of the intermediate dict is never written, so neither contributes.) -/
def extract_skills (text : String) : ExtractResult :=
  if text.data.isEmpty then ⟨[], []⟩
  else
    let textLower := lowerChars text.data
    let allSkills :=
      taxonomyExactMatches textLower ++ extractAcronyms text.data ++
        extractCompoundTerms text.data
    let finalSkills := allSkills.filter fun s => !(categoryNames.contains (strLower s))
    let cats := SKILL_TAXONOMY.filterMap fun cs =>
      let hits := cs.2.filter fun skill => searchWB (lowerChars skill.data) textLower
      if hits.isEmpty then none else some (cs.1, hits)
    ⟨finalSkills, cats⟩

/-! ## skill_extractor.py: `SkillExtractor.extract_experience_level` -/

/-- The ordered level → keyword-list table of `extract_experience_level`
(lines 313-318); Python dicts preserve insertion order, so iteration visits
entry, mid, senior, executive in that order. -/
def experienceLevels : List (String × List String) := [
  ("entry", ["entry level", "junior", "0-1 year", "<1 year", "intern", "trainee"]),
  ("mid", ["mid level", "mid-senior", "2-5 years", "3+ years", "intermediate"]),
  ("senior", ["senior", "5+ years", "7+ years", "lead", "principal"]),
  ("executive", ["director", "vp", "head of", "chief", "cto", "cio"])]

/-- The nested loop of `extract_experience_level`: return the first level (in
table order) one of whose keywords occurs in the lowered text. -/
def levelScan (tl : String) : List (String × List String) → Option String
  | [] => none
  | (level, keywords) :: rest =>
    match keywords.find? (fun kw => substrB kw tl) with
    | some _ => some level
    | none => levelScan tl rest

/-- `SkillExtractor.extract_experience_level` (lines 309-325); `none` models
Python's `None` (the spec's `unknown`). -/
def extract_experience_level (text : String) : Option String :=
  levelScan (strLower text) experienceLevels

/-! ## skill_extractor.py: `SkillExtractor.calculate_skill_match_score` -/

/-- One entry of the `partial_matches` list: the required skill and the
résumé skill that satisfied the substring test. -/
structure PartialMatch where
  required : String
  found : String
deriving DecidableEq

/-- The result dict of `calculate_skill_match_score`.  The float field
`match_percentage` (a recomputation of the base score no claim touches) is
not modelled; `score` models `min(100, int(base_score + partial_score))`
with exact rational arithmetic, `min 100 ((100*|matched| + 50*|partials|) /
total)` — IEEE-double rounding can differ from this by 1 in corner cases
(e.g. 29 matched of 100), but no claim concerns the score value. -/
structure MatchResult where
  score : Nat
  matched : List String
  missing : List String
  partial_matches : List PartialMatch
deriving DecidableEq

/-- The exact-match test of the loop (line 357): the lowered required skill
is an element of the lowercased résumé list. -/
def isExactFor (resume_lower : List String) (job_skill : String) : Bool :=
  resume_lower.contains (strLower job_skill)

/-- The partial-match search of the loop (lines 363-365): the first
*original-case* résumé skill that contains the lowered required skill, or is
contained in it, as a (case-sensitive) substring. -/
def partialCandidate (resume_skills : List String) (job_skill : String) :
    Option String :=
  resume_skills.find? fun resume_skill =>
    substrB (strLower job_skill) resume_skill ||
      substrB resume_skill (strLower job_skill)

/-- The per-required-skill loop of `calculate_skill_match_score` (lines
353-374), returning the three buckets.  `Except.error` models the
`ValueError` that `resume_lower.index(resume_skill)` raises when the
partial-match candidate `resume_skill` (taken from the *original-case* résumé
list) is not itself an element of the lowercased list. -/
def matchLoop (resume_skills resume_lower : List String) :
    List String → Except String (List String × List String × List PartialMatch)
  | [] => Except.ok ([], [], [])
  | job_skill :: rest =>
    if isExactFor resume_lower job_skill then
      match matchLoop resume_skills resume_lower rest with
      | Except.ok (m, mi, p) => Except.ok (job_skill :: m, mi, p)
      | Except.error e => Except.error e
    else
      match partialCandidate resume_skills job_skill with
      | some resume_skill =>
        match pyIndex resume_skill resume_lower with
        | some i =>
          match matchLoop resume_skills resume_lower rest with
          | Except.ok (m, mi, p) =>
            Except.ok (m, mi, ⟨job_skill, resume_skills.getD i ""⟩ :: p)
          | Except.error e => Except.error e
        | none => Except.error "ValueError"
      | none =>
        match matchLoop resume_skills resume_lower rest with
        | Except.ok (m, mi, p) => Except.ok (m, job_skill :: mi, p)
        | Except.error e => Except.error e

/-- `SkillExtractor.calculate_skill_match_score` (lines 327-391). -/
def calculate_skill_match_score (resume_skills job_requirements : List String) :
    Except String MatchResult :=
  if resume_skills.isEmpty || job_requirements.isEmpty then
    Except.ok ⟨0, [], [], []⟩
  else
    let resume_lower := resume_skills.map strLower
    match matchLoop resume_skills resume_lower job_requirements with
    | Except.error e => Except.error e
    | Except.ok (matched, missing, partials) =>
      let total := job_requirements.length
      Except.ok ⟨min 100 ((100 * matched.length + 50 * partials.length) / total),
        matched, missing, partials⟩

/-! ## ai_adapter.py: `AIAdapter._is_english_job` -/

/-- The Spanish-keyword list of `_is_english_job` (ai_adapter.py lines
206-210), verbatim including its duplicated entries. -/
def spanishKeywords : List String := [
  "buscamos", "buscamos+", "se busca", "buscamos", "buscamos talentos",
  "empleo", "trabajo", "vacante", "salario", "jornada", "contrato",
  "incorporación", "incorporar", "candidate", "candidatura",
  "empresa española", "madrid", "barcelona", "valencia", "sevilla",
  "bilbao", "españa", "spain"]

/-- The Spanish location tokens checked against `job_location` (line 225). -/
def spanishLocationTokens : List String :=
  ["madrid", "barcelona", "valencia", "sevilla", "bilbao", "españa", "spain"]

/-- The English location tokens checked against `job_location` (line 227). -/
def englishLocationTokens : List String :=
  ["usa", "uk", "united states", "london", "united kingdom", "new york",
   "san francisco", "remote us"]

/-- `AIAdapter._is_english_job` (lines 201-235): `true` means English.  A
truthy (non-empty) location matching a Spanish token returns Spanish
immediately; else an English token returns English immediately; else the job
is Spanish iff at least 3 Spanish keywords occur in the description. -/
def isEnglishJob (job_description : String) (job_location : Option String) : Bool :=
  let job_desc_lower := strLower job_description
  let spanish_count := spanishKeywords.countP fun kw => substrB kw job_desc_lower
  let locationDecision : Option Bool :=
    match job_location with
    | none => none
    | some loc =>
      if loc.data.isEmpty then none
      else
        let location_lower := strLower loc
        if spanishLocationTokens.any (fun city => substrB city location_lower) then
          some false
        else if englishLocationTokens.any (fun city => substrB city location_lower) then
          some true
        else none
  match locationDecision with
  | some b => b
  | none => if spanish_count ≥ 3 then false else true

/-! ## ai_adapter.py: `analyze_github_repos_for_job` per-repo scoring -/

/-- The repository data consumed by the scoring loop: the dict keys
`language`, `languages`, `topics`, `description`, `stars`, with the same
defaults as `repo.get(...)` (missing keys read as `""` / `{}` / `[]` / `0`). -/
structure Repo where
  language : String
  languages : List (String × Nat)
  topics : List String
  description : String
  stars : Nat
deriving DecidableEq

/-- Case-insensitive either-direction substring overlap between two terms,
as written at ai_adapter.py lines 427, 436, 445. -/
def termOverlap (a b : String) : Bool :=
  substrB (strLower a) (strLower b) || substrB (strLower b) (strLower a)

/-- The primary-language rule (lines 424-430), over the local
`repo_lang = repo.get("language", "").lower()`: the first required skill
that overlaps the (truthy) lowered primary language earns +30 and one reason
string, and the loop breaks. -/
def primaryStep (language : String) (required_skills : List String) : Nat × List String :=
  let repo_lang := strLower language
  match required_skills.find? (fun skill =>
      !repo_lang.data.isEmpty &&
        (substrB repo_lang (strLower skill) || substrB (strLower skill) repo_lang)) with
  | some skill =>
    (30, ["Primary language (" ++ repo_lang ++ ") matches requirement: " ++ skill])
  | none => (0, [])

/-- The reason string recorded for a language-byte-map hit (line 439). -/
def langReason (lang skill : String) : String :=
  "Language (" ++ lang ++ ") matches requirement: " ++ skill

/-- One (language, skill) iteration of the all-languages rule (lines
432-439): an overlapping pair earns +15 and a reason, provided *no* reason
recorded so far contains the text `"Primary language"`. -/
def langPairStep (acc : Nat × List String) (lang skill : String) : Nat × List String :=
  if termOverlap lang skill then
    if !(acc.2.any fun r => substrB "Primary language" r) then
      (acc.1 + 15, acc.2 ++ [langReason lang skill])
    else acc
  else acc

/-- The all-languages rule folded over the language-byte-map keys
(`repo.get("languages", {}).keys()`). -/
def langFold (languages : List (String × Nat)) (required_skills : List String)
    (acc : Nat × List String) : Nat × List String :=
  (languages.map (·.1)).foldl
    (fun acc lang => required_skills.foldl (fun acc skill => langPairStep acc lang skill) acc)
    acc

/-- The topics rule (lines 442-447): every overlapping (topic, skill) pair
earns +10 and a reason, with no deduplication. -/
def topicFold (topics : List String) (required_skills : List String)
    (acc : Nat × List String) : Nat × List String :=
  topics.foldl
    (fun acc topic => required_skills.foldl
      (fun acc skill =>
        if termOverlap topic skill then
          (acc.1 + 10, acc.2 ++ ["Topic (" ++ topic ++ ") matches requirement: " ++ skill])
        else acc)
      acc)
    acc

/-- The description rule (lines 450-455): for a truthy description, every
required skill whose lowercase text occurs in it earns +5 and a reason. -/
def descFold (description : String) (required_skills : List String)
    (acc : Nat × List String) : Nat × List String :=
  if description.data.isEmpty then acc
  else
    required_skills.foldl
      (fun acc skill =>
        if substrB (strLower skill) (strLower description) then
          (acc.1 + 5, acc.2 ++ ["Description mentions: " ++ skill])
        else acc)
      acc

/-- The popularity rule (lines 458-460): repos with more than 10 stars earn
`min(5, stars // 10)`. -/
def starBonus (stars : Nat) : Nat := if stars > 10 then min 5 (stars / 10) else 0

/-- The accumulated (score, reasons) state after all five rules of the
per-repo loop body of `analyze_github_repos_for_job` (lines 420-460). -/
def repoScoreState (repo : Repo) (required_skills : List String) : Nat × List String :=
  let acc := primaryStep repo.language required_skills
  let acc := langFold repo.languages required_skills acc
  let acc := topicFold repo.topics required_skills acc
  let acc := descFold repo.description required_skills acc
  (acc.1 + starBonus repo.stars, acc.2)

/-- The fields attached to each analyzed repo (lines 462-467). -/
structure RepoAnalysis where
  relevance_score : Nat
  relevance_reasons : List String
  should_include : Bool
deriving DecidableEq

/-- The analysis record built for one repo: the score capped at 100, the
reasons, and `should_include = score >= 30` (on the uncapped score). -/
def analyzeRepo (repo : Repo) (required_skills : List String) : RepoAnalysis :=
  let st := repoScoreState repo required_skills
  ⟨min 100 st.1, st.2, st.1 ≥ 30⟩

/-! ## github.py routes: `_get_recommendation` -/

/-- `_get_recommendation` (github.py lines 317-326): bucket a relevance
score. -/
def getRecommendation (score : Nat) : String :=
  if score ≥ 70 then "highly_recommended"
  else if score ≥ 40 then "recommended"
  else if score ≥ 20 then "maybe_relevant"
  else "not_relevant"

/-! ## job_scraper.py: `JobScraper.extract_requirements`

The two section patterns
`r'(?:Requirements|Qualifications|Required Skills):(.*?)(?:\n\n|\n[A-Z][a-z]+:|$)'`
and `r'(?:Requisitos|Requerimientos):(.*?)(?:\n\n|\n[A-Z][a-z]+:|$)'` run under
`re.IGNORECASE | re.DOTALL`, so the header alternatives match
case-insensitively, `.*?` crosses newlines lazily, `[A-Z]`/`[a-z]` both match
letters of either case, and `$` matches at the end of the text or just before
a trailing newline.  The item pattern is
`r'[•\-\*o]\s*([^\n]+)|\d+\.\s*([^\n]+)'`. -/

/-- Case-insensitive literal prefix test on character lists. -/
def ciStartsWith (p t : List Char) : Bool := (lowerChars p).isPrefixOf (lowerChars t)

/-- The earliest point at which the section terminator
`(?:\n\n|\n[A-Z][a-z]+:|$)` matches in the remaining text, as
(offset, matched length).  Total because `$` always matches at the end (and
also just before a trailing newline, absent `re.MULTILINE`). -/
def findTerm : List Char → Nat × Nat
  | [] => (0, 0)
  | ['\n'] => (0, 0)
  | '\n' :: c :: rest =>
    if c = '\n' then (0, 2)
    else if c.isAlpha then
      let run := rest.takeWhile Char.isAlpha
      if 1 ≤ run.length ∧ (rest.drop run.length).head? = some ':' then
        (0, run.length + 3)
      else
        let p := findTerm (c :: rest)
        (p.1 + 1, p.2)
    else
      let p := findTerm (c :: rest)
      (p.1 + 1, p.2)
  | _ :: rest =>
    let p := findTerm rest
    (p.1 + 1, p.2)

/-- Does one of the header alternatives, followed by `:`, match
case-insensitively at the head of `l`?  Returns the matched length. -/
def headerAt (headers : List String) (l : List Char) : Option Nat :=
  headers.findSome? fun h =>
    if ciStartsWith (h.data ++ [':']) l then some (h.data.length + 1) else none

/-- `re.findall` of one section pattern: scan for a header, capture lazily up
to the earliest terminator, and resume after the full match.  The `fuel`
argument only bounds the recursion; every step consumes at least the head
character, so `fuel = l.length` (as supplied by `outerScan`) never runs
out. -/
def outerScanFuel (headers : List String) : Nat → List Char → List (List Char)
  | 0, _ => []
  | _, [] => []
  | fuel + 1, c :: rest =>
    match headerAt headers (c :: rest) with
    | some hlen =>
      let body := (c :: rest).drop hlen
      let t := findTerm body
      body.take t.1 :: outerScanFuel headers fuel (rest.drop (hlen - 1 + t.1 + t.2))
    | none => outerScanFuel headers fuel rest

/-- `re.findall` of one section pattern over a whole text. -/
def outerScan (headers : List String) (l : List Char) : List (List Char) :=
  outerScanFuel headers l.length l

/-- The bullet-marker class `[•\-\*o]`. -/
def bulletChars : List Char := ['•', '-', '*', 'o']

/-- The `\s*([^\n]+)` part of the item pattern, applied after a marker:
greedy whitespace, then a non-empty greedy run of non-newline characters,
with the regex backtracking when `\s*` swallows the rest of the string (in
which case the last non-newline whitespace character is captured alone).
Returns (capture, characters consumed). -/
def tailItemMatch (afterMark : List Char) : Option (List Char × Nat) :=
  let ws := afterMark.takeWhile pyWs
  let rem := afterMark.drop ws.length
  match rem with
  | [] =>
    let revWs := ws.reverse
    let trailNl := revWs.takeWhile (fun c => c = '\n')
    match revWs.drop trailNl.length with
    | [] => none
    | c :: _ => some ([c], ws.length - trailNl.length)
  | _ =>
    let cap := rem.takeWhile (fun c => c ≠ '\n')
    some (cap, ws.length + cap.length)

/-- One attempt of the item pattern at the head of the list, returning the
capture and the number of characters consumed *after* the first. -/
def matchItemAt : List Char → Option (List Char × Nat)
  | [] => none
  | c :: rest =>
    if bulletChars.contains c then
      tailItemMatch rest
    else if c.isDigit then
      let ds := rest.takeWhile Char.isDigit
      match rest.drop ds.length with
      | '.' :: rem2 => (tailItemMatch rem2).map fun p => (p.1, ds.length + 1 + p.2)
      | _ => none
    else none

/-- `re.findall` of the item pattern over a section match: non-overlapping
left-to-right matches; `item[0] or item[1]` in the source selects whichever
alternative's capture participated, which is the returned capture here.
`fuel` only bounds the recursion: each step consumes at least the head
character, so `fuel = l.length` (as supplied by `itemScan`) never runs
out. -/
def itemScanFuel : Nat → List Char → List (List Char)
  | 0, _ => []
  | _, [] => []
  | fuel + 1, c :: rest =>
    match matchItemAt (c :: rest) with
    | some p => p.1 :: itemScanFuel fuel (rest.drop p.2)
    | none => itemScanFuel fuel rest

/-- `re.findall` of the item pattern over a whole section match. -/
def itemScan (l : List Char) : List (List Char) := itemScanFuel l.length l

/-- The two header alternation lists, in pattern order. -/
def requirementHeaderPatterns : List (List String) := [
  ["Requirements", "Qualifications", "Required Skills"],
  ["Requisitos", "Requerimientos"]]

/-- `JobScraper.extract_requirements` (job_scraper.py lines 151-172): for
each pattern and each section match, every bullet/numbered item is stripped
and kept when non-empty and longer than 5 characters; the list is truncated
to 10 entries. -/
def extract_requirements (text : String) : List String :=
  let perPattern := requirementHeaderPatterns.map fun headers =>
    ((outerScan headers text.data).map fun m =>
      (itemScan m).filterMap fun item =>
        let req := stripChars item
        if req ≠ [] ∧ req.length > 5 then some ((⟨req⟩ : String)) else none).flatten
  perPattern.flatten.take 10

/-! ## Theorems settling the claims -/

/-- A successful run of the bucket loop filters the required skills into the
three buckets by the exact-match and partial-match predicates. -/
theorem matchLoop_ok_spec (rs rl : List String) :
    ∀ (req m mi : List String) (p : List PartialMatch),
      matchLoop rs rl req = Except.ok (m, mi, p) →
      m = req.filter (fun js => isExactFor rl js) ∧
      mi = req.filter (fun js => !isExactFor rl js && (partialCandidate rs js).isNone) ∧
      p.map (·.required) =
        req.filter (fun js => !isExactFor rl js && (partialCandidate rs js).isSome) := by
  intro req
  induction req with
  | nil =>
    intro m mi p h
    simp only [matchLoop, Except.ok.injEq, Prod.mk.injEq] at h
    obtain ⟨rfl, rfl, rfl⟩ := h
    simp
  | cons js rest ih =>
    intro m mi p h
    simp only [matchLoop] at h
    by_cases hex : isExactFor rl js = true
    · rw [if_pos hex] at h
      cases hrec : matchLoop rs rl rest with
      | error e => rw [hrec] at h; exact absurd h (by simp)
      | ok t =>
        obtain ⟨m', mi', p'⟩ := t
        rw [hrec] at h
        simp only [Except.ok.injEq, Prod.mk.injEq] at h
        obtain ⟨rfl, rfl, rfl⟩ := h
        obtain ⟨e1, e2, e3⟩ := ih m' mi' p' hrec
        refine ⟨?_, ?_, ?_⟩ <;> simp [List.filter_cons, hex, e1, e2, e3]
    · rw [if_neg hex] at h
      cases hpc : partialCandidate rs js with
      | some resume_skill =>
        rw [hpc] at h
        dsimp only at h
        cases hidx : pyIndex resume_skill rl with
        | some i =>
          rw [hidx] at h
          cases hrec : matchLoop rs rl rest with
          | error e => rw [hrec] at h; exact absurd h (by simp)
          | ok t =>
            obtain ⟨m', mi', p'⟩ := t
            rw [hrec] at h
            simp only [Except.ok.injEq, Prod.mk.injEq] at h
            obtain ⟨rfl, rfl, rfl⟩ := h
            obtain ⟨e1, e2, e3⟩ := ih m' mi' p' hrec
            refine ⟨?_, ?_, ?_⟩ <;> simp [List.filter_cons, hex, hpc, e1, e2, e3]
        | none => rw [hidx] at h; exact absurd h (by simp)
      | none =>
        rw [hpc] at h
        dsimp only at h
        cases hrec : matchLoop rs rl rest with
        | error e => rw [hrec] at h; exact absurd h (by simp)
        | ok t =>
          obtain ⟨m', mi', p'⟩ := t
          rw [hrec] at h
          simp only [Except.ok.injEq, Prod.mk.injEq] at h
          obtain ⟨rfl, rfl, rfl⟩ := h
          obtain ⟨e1, e2, e3⟩ := ih m' mi' p' hrec
          refine ⟨?_, ?_, ?_⟩ <;> simp [List.filter_cons, hex, hpc, e1, e2, e3]

/-- C2 (counterexample): scoring the repository {primaryLanguage: "Python",
languages: {"Python": 9000, "HTML": 100}, topics: ["machine-learning"],
stars: 45} against required skills ["Python", "ML"] does *not* give score 44
or recommendation "recommended": the topic rule never fires, because "ml" is
not a substring of "machine-learning" (nor conversely), so no +10 is
earned. -/
theorem c2_counterexample :
    (analyzeRepo ⟨"Python", [("Python", 9000), ("HTML", 100)], ["machine-learning"], "", 45⟩
        ["Python", "ML"]).relevance_score ≠ 44 ∧
    getRecommendation (analyzeRepo ⟨"Python", [("Python", 9000), ("HTML", 100)],
        ["machine-learning"], "", 45⟩ ["Python", "ML"]).relevance_score ≠ "recommended" := by
  decide

/-- C2 (amended): the scenario repo earns the primary-language +30 (its only
rule hit besides stars: with stars zeroed the score is exactly 30), a star
bonus of +4, for a total of 34; the recommendation bucket of 34 is
"maybe_relevant", and should_include = true (34 ≥ 30). -/
theorem c2_amended :
    analyzeRepo ⟨"Python", [("Python", 9000), ("HTML", 100)], ["machine-learning"], "", 45⟩
        ["Python", "ML"] =
      ⟨34, ["Primary language (python) matches requirement: Python"], true⟩ ∧
    (repoScoreState ⟨"Python", [("Python", 9000), ("HTML", 100)], ["machine-learning"], "", 0⟩
        ["Python", "ML"]).1 = 30 ∧
    starBonus 45 = 4 ∧
    getRecommendation 34 = "maybe_relevant" := by
  decide

/-- C3 (counterexample): a repository with 10 stars (and nothing else to
score) gets relevance score 0, although `min(5, stars // 10) = 1`: the
popularity bonus is gated behind `stars > 10`, so the claimed bonus is not
included for stars = 10. -/
theorem c3_counterexample :
    (analyzeRepo ⟨"", [], [], "", 10⟩ ["Python"]).relevance_score = 0 ∧
    min 5 (10 / 10) = 1 := by
  decide

/-- C3 (amended): for every repository and requirements input, the additive
repo score decomposes as the score of the same repo with stars zeroed plus a
popularity bonus of `min(5, stars // 10)` *when stars > 10* and 0
otherwise. -/
theorem c3_amended (repo : Repo) (required_skills : List String) :
    (repoScoreState repo required_skills).1 =
      (repoScoreState { repo with stars := 0 } required_skills).1 + starBonus repo.stars := by
  simp [repoScoreState, starBonus]

/-- C6 (counterexample): `clean_text` is not idempotent: on "a ␣ZWSP␣ b" the
zero-width space is removed *after* whitespace collapsing, leaving a double
space that a second pass collapses. -/
theorem c6_counterexample :
    clean_text (clean_text ⟨['a', ' ', zwsp, ' ', 'b']⟩) ≠
      clean_text ⟨['a', ' ', zwsp, ' ', 'b']⟩ := by
  decide

/-- C7 (code bug): `calculate_skill_match_score` *can* raise.  On résumé
skills ["reactJS"] and required ["react"], the partial-match branch fires
(the lowered requirement "react" is a substring of the original-case résumé
entry "reactJS"), and `resume_lower.index("reactJS")` raises `ValueError`
because the lowercased list only holds "reactjs". -/
theorem c7_failing_input :
    calculate_skill_match_score ["reactJS"] ["react"] = Except.error "ValueError" := rfl

/-- C9 (confirmed): for every description, the location "Madrid" makes
`_is_english_job` return `false` (Spanish) and "San Francisco" makes it
return `true` (English): both location token checks decide before the
Spanish-keyword count of the description is consulted. -/
theorem c9_location_short_circuit (description : String) :
    isEnglishJob description (some "Madrid") = false ∧
    isEnglishJob description (some "San Francisco") = true :=
  ⟨rfl, rfl⟩

/-- C1 (counterexample): on résumé skills ["pythonista"] and required
["python"], the required skill lands in the partial-match bucket, so
`matched ∪ missing` is empty and does *not* equal the required-skill list. -/
theorem c1_counterexample :
    ¬ (∀ (r : MatchResult) (s : String),
        calculate_skill_match_score ["pythonista"] ["python"] = Except.ok r →
        ((s ∈ r.matched ∨ s ∈ r.missing) ↔ s ∈ ["python"])) := by
  intro h
  have h2 := (h ⟨50, [], [], [⟨"python", "pythonista"⟩]⟩ "python" rfl).mpr (by simp)
  simp at h2

/-- C1 (amended): for a non-empty résumé list, whenever
`calculate_skill_match_score` returns (rather than raising), the lists
`matched`, `missing` and the required-skill fields of `partial_matches`
together cover exactly the required-skill list; no skill is in both
`matched` and `missing`, and no required skill of `partial_matches` is also
in `matched`. -/
theorem c1_partition (rs req : List String) (r : MatchResult)
    (hrs : rs ≠ [])
    (h : calculate_skill_match_score rs req = Except.ok r) :
    (∀ s, (s ∈ r.matched ∨ s ∈ r.missing ∨ s ∈ r.partial_matches.map (·.required)) ↔
      s ∈ req) ∧
    (∀ s, ¬(s ∈ r.matched ∧ s ∈ r.missing)) ∧
    (∀ s, s ∈ r.partial_matches.map (·.required) → s ∉ r.matched) := by
  have hrsE : rs.isEmpty = false := by
    cases rs with
    | nil => exact absurd rfl hrs
    | cons a l => rfl
  rw [calculate_skill_match_score] at h
  by_cases hreq : req = []
  · rw [if_pos (by simp [hreq])] at h
    simp only [Except.ok.injEq] at h
    subst h
    subst hreq
    simp
  · have hreqE : req.isEmpty = false := by
      cases req with
      | nil => exact absurd rfl hreq
      | cons a l => rfl
    rw [if_neg (by simp [hrsE, hreqE])] at h
    dsimp only at h
    cases hrec : matchLoop rs (rs.map strLower) req with
    | error e => rw [hrec] at h; exact absurd h (by simp)
    | ok t =>
      obtain ⟨m, mi, p⟩ := t
      rw [hrec] at h
      simp only [Except.ok.injEq] at h
      obtain ⟨e1, e2, e3⟩ := matchLoop_ok_spec rs (rs.map strLower) req m mi p hrec
      subst h
      refine ⟨?_, ?_, ?_⟩
      · intro s
        simp only [e1, e2, e3, List.mem_filter]
        constructor
        · rintro (⟨hs, _⟩ | ⟨hs, _⟩ | ⟨hs, _⟩) <;> exact hs
        · intro hs
          by_cases hc : isExactFor (rs.map strLower) s = true
          · exact Or.inl ⟨hs, hc⟩
          · cases hpc : partialCandidate rs s with
            | some c => exact Or.inr (Or.inr ⟨hs, by simp [hc, hpc]⟩)
            | none => exact Or.inr (Or.inl ⟨hs, by simp [hc, hpc]⟩)
      · rintro s ⟨h1, h2⟩
        rw [e1, List.mem_filter] at h1
        rw [e2, List.mem_filter] at h2
        simp only [h1.2, Bool.not_true, Bool.false_and] at h2
        exact absurd h2.2 (by simp)
      · intro s hp hm
        rw [e1, List.mem_filter] at hm
        rw [e3, List.mem_filter] at hp
        simp only [hm.2, Bool.not_true, Bool.false_and] at hp
        exact absurd hp.2 (by simp)

/-- Witness for C1 at a concrete input: résumé ["react"] against required
["react", "aws"] returns matched = ["react"], missing = ["aws"], and the
partition law holds there, e.g. for the skill "aws". -/
theorem c1_witness :
    (["react"] : List String) ≠ [] ∧
    (("aws" ∈ (MatchResult.mk 50 ["react"] ["aws"] []).matched ∨
      "aws" ∈ (MatchResult.mk 50 ["react"] ["aws"] []).missing ∨
      "aws" ∈ (MatchResult.mk 50 ["react"] ["aws"] []).partial_matches.map (·.required)) ↔
      "aws" ∈ ["react", "aws"]) :=
  ⟨by simp,
   (c1_partition ["react"] ["react", "aws"] ⟨50, ["react"], ["aws"], []⟩ (by simp) rfl).1 "aws"⟩

/-- The nested scan of the experience-level table returns the first table
entry (in order) one of whose keywords occurs in the text. -/
theorem levelScan_eq_find (tl : String) :
    ∀ tbl : List (String × List String),
      levelScan tl tbl =
        (tbl.find? fun lv => lv.2.any fun kw => substrB kw tl).map Prod.fst := by
  intro tbl
  induction tbl with
  | nil => rfl
  | cons e rest ih =>
    obtain ⟨level, keywords⟩ := e
    simp only [levelScan, List.find?]
    cases hf : keywords.find? (fun kw => substrB kw tl) with
    | some kw =>
      have hmem := List.mem_of_find?_eq_some hf
      have hpkw := List.find?_some hf
      have hany : (keywords.any fun kw => substrB kw tl) = true :=
        List.any_eq_true.mpr ⟨kw, hmem, hpkw⟩
      simp [hany]
    | none =>
      have hany : (keywords.any fun kw => substrB kw tl) = false := by
        simp only [List.any_eq_false]
        intro kw hkw
        have := List.find?_eq_none.mp hf kw hkw
        simpa using this
      simp [hany, ih]

/-- C8 (confirmed): the classifier's table order is entry, mid, senior,
executive; for every text the result is the first level in that order with
a keyword hit (`none` = unknown when none hit); in particular the scenario
text containing both "junior" (entry) and "lead" (senior) classifies as
entry. -/
theorem c8_priority_order :
    extract_experience_level "We need a junior developer who will become a future lead" =
      some "entry" ∧
    experienceLevels.map Prod.fst = ["entry", "mid", "senior", "executive"] ∧
    ∀ text : String,
      extract_experience_level text =
        (experienceLevels.find? fun lv =>
          lv.2.any fun kw => substrB kw (strLower text)).map Prod.fst :=
  ⟨by decide, rfl, fun text => levelScan_eq_find (strLower text) experienceLevels⟩

/-- Folding a function that fixes `a` leaves `a` unchanged. -/
theorem foldl_fixed {α β : Type} (f : α → β → α) (a : α) (l : List β)
    (h : ∀ b, f a b = a) : l.foldl f a = a := by
  induction l with
  | nil => rfl
  | cons x xs ih => rw [List.foldl_cons, h x, ih]

/-- Once a recorded reason contains "Primary language", a language/skill pair
earns nothing. -/
theorem langPairStep_blocked (acc : Nat × List String) (lang skill : String)
    (h : (acc.2.any fun r => substrB "Primary language" r) = true) :
    langPairStep acc lang skill = acc := by
  unfold langPairStep
  rw [h]
  simp

/-- Once a recorded reason contains "Primary language", the whole
all-languages rule is inert. -/
theorem langFold_blocked (languages : List (String × Nat)) (skills : List String)
    (acc : Nat × List String)
    (h : (acc.2.any fun r => substrB "Primary language" r) = true) :
    langFold languages skills acc = acc := by
  unfold langFold
  refine foldl_fixed _ _ _ fun lang => ?_
  exact foldl_fixed _ _ _ fun skill => langPairStep_blocked acc lang skill h

/-- One language's inner fold when no reason so far (and none to be added)
contains "Primary language": every overlapping skill adds +15 and its
reason. -/
theorem langInner_free (lang : String) :
    ∀ (sk : List String) (acc : Nat × List String),
      (acc.2.any fun r => substrB "Primary language" r) = false →
      (∀ skill ∈ sk, substrB "Primary language" (langReason lang skill) = false) →
      sk.foldl (fun acc skill => langPairStep acc lang skill) acc =
        (acc.1 + 15 * sk.countP (fun skill => termOverlap lang skill),
         acc.2 ++ (sk.filter (fun skill => termOverlap lang skill)).map (langReason lang)) := by
  intro sk
  induction sk with
  | nil => intro acc h1 _; simp
  | cons s ss ih =>
    intro acc h1 h2
    simp only [List.foldl_cons]
    by_cases ho : termOverlap lang s = true
    · have step : langPairStep acc lang s = (acc.1 + 15, acc.2 ++ [langReason lang s]) := by
        unfold langPairStep
        rw [ho, h1]
        simp
      rw [step, ih (acc.1 + 15, acc.2 ++ [langReason lang s])
        (by simp [h1, h2 s (by simp)])
        (fun skill hs => h2 skill (by simp [hs]))]
      simp only [List.countP_cons, List.filter_cons, ho, if_pos, List.map_cons]
      refine Prod.ext ?_ ?_
      · simp only []
        omega
      · simp
    · have step : langPairStep acc lang s = acc := by
        unfold langPairStep
        rw [if_neg ho]
      rw [step, ih acc h1 (fun skill hs => h2 skill (by simp [hs]))]
      have ho' : termOverlap lang s = false := by
        cases hb : termOverlap lang s with
        | false => rfl
        | true => exact absurd hb ho
      simp [List.countP_cons, List.filter_cons, ho']

/-- The whole all-languages rule when no "Primary language" reason exists and
none of the to-be-added reasons smuggles that text in: the score grows by 15
for every overlapping (language, skill) pair. -/
theorem langFold_free (skills : List String) :
    ∀ (keys : List String) (acc : Nat × List String),
      (acc.2.any fun r => substrB "Primary language" r) = false →
      (∀ lang ∈ keys, ∀ skill ∈ skills,
        substrB "Primary language" (langReason lang skill) = false) →
      keys.foldl
          (fun acc lang => skills.foldl (fun acc skill => langPairStep acc lang skill) acc)
          acc =
        (acc.1 + 15 * (keys.map fun lang =>
            skills.countP (fun skill => termOverlap lang skill)).sum,
         acc.2 ++ (keys.map fun lang =>
            (skills.filter (termOverlap lang)).map (langReason lang)).flatten) := by
  intro keys
  induction keys with
  | nil => intro acc h1 _; simp
  | cons k ks ih =>
    intro acc h1 h2
    simp only [List.foldl_cons]
    rw [langInner_free k skills acc h1 (fun skill hs => h2 k (by simp) skill hs)]
    rw [ih _ ?hany ?hfree]
    case hany =>
      simp only [List.any_append, h1, Bool.false_or]
      simp only [List.any_eq_false]
      intro r hr
      simp only [List.mem_map] at hr
      obtain ⟨skill, hskill, rfl⟩ := hr
      simp [h2 k (by simp) skill (List.mem_of_mem_filter hskill)]
    case hfree =>
      intro lang hl skill hs
      exact h2 lang (by simp [hl]) skill hs
    refine Prod.ext ?_ ?_
    · simp only [List.map_cons, List.sum_cons]
      omega
    · simp

/-- A prefix is a substring. -/
theorem listSub_of_isPrefixOf {n l : List Char} (h : n.isPrefixOf l = true) :
    listSub n l = true := by
  cases l with
  | nil =>
    cases n with
    | nil => rfl
    | cons c cs => simp [List.isPrefixOf] at h
  | cons c cs => simp [listSub, h]

/-- The reason string recorded by the primary-language rule always contains
the text "Primary language". -/
theorem primaryReason_marked (x y : String) :
    substrB "Primary language" ("Primary language (" ++ x ++ ") matches requirement: " ++ y)
      = true := by
  apply listSub_of_isPrefixOf
  rw [List.isPrefixOf_iff_prefix]
  simp only [String.data_append]
  rw [List.append_assoc, List.append_assoc]
  exact List.IsPrefix.trans (by decide) (List.prefix_append _ _)

/-- C4 (counterexample): with primary language "Python", byte-map languages
{"Python", "Java"} and required skills ["Python", "Java"], the declared
language "Java" overlaps the required skill "Java" and was not credited by
the primary rule (which credited "Python"), yet the total additive score is
30, not 45: once the primary rule fires, the guard `"Primary language" in r`
suppresses *every* +15 language bonus. -/
theorem c4_counterexample :
    (repoScoreState ⟨"Python", [("Python", 1), ("Java", 1)], [], "", 0⟩
        ["Python", "Java"]).1 = 30 ∧
    termOverlap "Java" "Java" = true ∧
    (primaryStep "Python" ["Python", "Java"]).1 = 30 := by
  decide

/-- C4 (amended): provided no constructed language-reason string happens to
contain the text "Primary language" (true of any real language/skill names),
the all-languages rule contributes nothing at all when the primary-language
rule fired, and otherwise contributes exactly 15 points per overlapping
(language, required-skill) pair — a language overlapping k required skills
contributes 15k, not 15. -/
theorem c4_language_rule (repo : Repo) (skills : List String)
    (hfree : ∀ lang ∈ repo.languages.map (·.1), ∀ skill ∈ skills,
      substrB "Primary language" (langReason lang skill) = false) :
    (langFold repo.languages skills (primaryStep repo.language skills)).1 =
      (primaryStep repo.language skills).1 +
        (if (primaryStep repo.language skills).1 = 30 then 0
         else 15 * ((repo.languages.map (·.1)).map fun lang =>
            skills.countP (fun skill => termOverlap lang skill)).sum) := by
  unfold primaryStep
  dsimp only
  cases hf : skills.find? (fun skill =>
      !(strLower repo.language).data.isEmpty &&
        (substrB (strLower repo.language) (strLower skill) ||
          substrB (strLower skill) (strLower repo.language))) with
  | some skill =>
    dsimp only
    rw [langFold_blocked _ _ _ (by simp [primaryReason_marked])]
    simp
  | none =>
    dsimp only
    unfold langFold
    rw [langFold_free skills (repo.languages.map (·.1)) (0, []) (by simp) hfree]
    simp

/-- Witness for C4 at a concrete input: primary "Python" fires, and the
overlapping pair ("Java", "Java") earns nothing, leaving the language-rule
state at score 30. -/
theorem c4_witness :
    (langFold (Repo.mk "Python" [("Python", 1), ("Java", 1)] [] "" 0).languages
        ["Python", "Java"]
        (primaryStep (Repo.mk "Python" [("Python", 1), ("Java", 1)] [] "" 0).language
          ["Python", "Java"])).1 =
      (primaryStep (Repo.mk "Python" [("Python", 1), ("Java", 1)] [] "" 0).language
          ["Python", "Java"]).1 +
        (if (primaryStep (Repo.mk "Python" [("Python", 1), ("Java", 1)] [] "" 0).language
            ["Python", "Java"]).1 = 30 then 0
         else 15 * (((Repo.mk "Python" [("Python", 1), ("Java", 1)] [] "" 0).languages.map
            (·.1)).map (fun lang => (["Python", "Java"] : List String).countP
              (fun skill => termOverlap lang skill))).sum) :=
  c4_language_rule (Repo.mk "Python" [("Python", 1), ("Java", 1)] [] "" 0) ["Python", "Java"]
    (by decide)

/-- After a whitespace run has begun, the collapsed output starts with a
non-whitespace character (the run's space was already emitted). -/
theorem collapseAux_head_true :
    ∀ (l : List Char) (c : Char), (collapseWsAux true l).head? = some c → pyWs c = false := by
  intro l
  induction l with
  | nil => intro c h; simp [collapseWsAux] at h
  | cons d rest ih =>
    intro c h
    rw [collapseWsAux] at h
    by_cases hd : pyWs d = true
    · rw [if_pos hd, if_pos rfl] at h
      exact ih c h
    · rw [if_neg hd] at h
      simp only [List.head?_cons, Option.some.injEq] at h
      subst h
      simpa using hd

/-- The collapsed output never has two adjacent whitespace characters. -/
theorem collapseAux_chain :
    ∀ (l : List Char) (b : Bool), List.Chain' noWsPair (collapseWsAux b l) := by
  intro l
  induction l with
  | nil => intro b; simp [collapseWsAux]
  | cons d rest ih =>
    intro b
    rw [collapseWsAux]
    by_cases hd : pyWs d = true
    · rw [if_pos hd]
      cases b with
      | true => exact ih true
      | false =>
        rw [if_neg (by simp)]
        rw [List.chain'_cons']
        refine ⟨?_, ih true⟩
        intro y hy
        have : pyWs y = false := collapseAux_head_true rest y hy
        exact fun hcon => by rw [this] at hcon; exact absurd hcon.2 (by simp)
    · rw [if_neg hd]
      rw [List.chain'_cons']
      refine ⟨?_, ih false⟩
      intro y _
      exact fun hcon => hd hcon.1

/-- Every whitespace character of the collapsed output is the ASCII space. -/
theorem collapseAux_space :
    ∀ (l : List Char) (b : Bool) (c : Char),
      c ∈ collapseWsAux b l → pyWs c = true → c = ' ' := by
  intro l
  induction l with
  | nil => intro b c h; simp [collapseWsAux] at h
  | cons d rest ih =>
    intro b c h hws
    rw [collapseWsAux] at h
    by_cases hd : pyWs d = true
    · rw [if_pos hd] at h
      cases b with
      | true => exact ih true c h hws
      | false =>
        rw [if_neg (by simp)] at h
        rcases List.mem_cons.mp h with h | h
        · exact h
        · exact ih true c h hws
    · rw [if_neg hd] at h
      rcases List.mem_cons.mp h with h | h
      · subst h; exact absurd hws hd
      · exact ih false c h hws

/-- Every character of the collapsed output is a space or a character of the
input. -/
theorem collapseAux_mem :
    ∀ (l : List Char) (b : Bool) (c : Char),
      c ∈ collapseWsAux b l → c = ' ' ∨ c ∈ l := by
  intro l
  induction l with
  | nil => intro b c h; simp [collapseWsAux] at h
  | cons d rest ih =>
    intro b c h
    rw [collapseWsAux] at h
    by_cases hd : pyWs d = true
    · rw [if_pos hd] at h
      cases b with
      | true =>
        rcases ih true c h with h' | h'
        · exact Or.inl h'
        · exact Or.inr (List.mem_cons_of_mem d h')
      | false =>
        rw [if_neg (by simp)] at h
        rcases List.mem_cons.mp h with h' | h'
        · exact Or.inl h'
        · rcases ih true c h' with h'' | h''
          · exact Or.inl h''
          · exact Or.inr (List.mem_cons_of_mem d h'')
    · rw [if_neg hd] at h
      rcases List.mem_cons.mp h with h' | h'
      · exact Or.inr (h' ▸ List.mem_cons_self d rest)
      · rcases ih false c h' with h'' | h''
        · exact Or.inl h''
        · exact Or.inr (List.mem_cons_of_mem d h'')

/-- A list whose whitespace is all single spaces with no two adjacent is a
fixed point of whitespace collapsing. -/
theorem collapseAux_id :
    ∀ l : List Char, (∀ c ∈ l, pyWs c = true → c = ' ') →
      List.Chain' noWsPair l → collapseWsAux false l = l := by
  intro l
  induction l with
  | nil => intro _ _; rfl
  | cons d rest ih =>
    intro hall hchain
    rw [collapseWsAux]
    by_cases hd : pyWs d = true
    · rw [if_pos hd, if_neg (by simp)]
      have hd' : d = ' ' := hall d (List.mem_cons_self d rest) hd
      subst hd'
      cases rest with
      | nil => rfl
      | cons e r =>
        have he : pyWs e = false := by
          have := (List.chain'_cons'.mp hchain).1 e (by simp)
          cases hbe : pyWs e with
          | false => rfl
          | true => exact absurd ⟨hd, hbe⟩ this
        have htail := ih (fun c hc => hall c (List.mem_cons_of_mem _ hc))
          (List.Chain'.tail hchain)
        have hrr : collapseWsAux false r = r := by
          have h2 : collapseWsAux false (e :: r) = e :: collapseWsAux false r := by
            rw [collapseWsAux, if_neg (by simp [he])]
          rw [h2] at htail
          simpa using htail
        have h3 : collapseWsAux true (e :: r) = e :: collapseWsAux false r := by
          rw [collapseWsAux, if_neg (by simp [he])]
        rw [h3, hrr]
    · rw [if_neg hd]
      exact congrArg _ (ih (fun c hc => hall c (List.mem_cons_of_mem _ hc))
        (List.Chain'.tail hchain))

/-- The head of a `dropWhile` result never satisfies the predicate. -/
theorem dropWhile_head_not {α : Type} (p : α → Bool) :
    ∀ (l : List α) (c : α), (l.dropWhile p).head? = some c → p c = false := by
  intro l
  induction l with
  | nil => intro c h; simp at h
  | cons d rest ih =>
    intro c h
    rw [List.dropWhile_cons] at h
    by_cases hd : p d = true
    · rw [if_pos hd] at h
      exact ih c h
    · rw [if_neg hd] at h
      simp only [List.head?_cons, Option.some.injEq] at h
      subst h
      simpa using hd

/-- `dropWhile` preserves the no-adjacent-pair invariant. -/
theorem chain'_dropWhile {α : Type} {R : α → α → Prop} (p : α → Bool) :
    ∀ l : List α, List.Chain' R l → List.Chain' R (l.dropWhile p) := by
  intro l
  induction l with
  | nil => intro _; simp
  | cons d rest ih =>
    intro h
    rw [List.dropWhile_cons]
    by_cases hd : p d = true
    · rw [if_pos hd]
      exact ih (List.Chain'.tail h)
    · rw [if_neg hd]
      exact h

/-- A list that does not start with a `p`-character is untouched by
`dropWhile p`. -/
theorem dropWhile_id_of_head {α : Type} (p : α → Bool) :
    ∀ l : List α, (∀ c, l.head? = some c → p c = false) → l.dropWhile p = l := by
  intro l hl
  cases l with
  | nil => rfl
  | cons d rest =>
    rw [List.dropWhile_cons, if_neg (by simp [hl d rfl])]

/-- Characters of a stripped list come from the original list. -/
theorem stripChars_sub (l : List Char) (c : Char) (h : c ∈ stripChars l) : c ∈ l := by
  unfold stripChars rstripChars lstripChars at h
  rw [List.mem_reverse] at h
  have h1 := (List.dropWhile_sublist pyWs).subset h
  rw [List.mem_reverse] at h1
  exact (List.dropWhile_sublist pyWs).subset h1

/-- Stripping preserves the no-adjacent-whitespace invariant. -/
theorem stripChars_chain (l : List Char) (h : List.Chain' noWsPair l) :
    List.Chain' noWsPair (stripChars l) := by
  unfold stripChars rstripChars lstripChars
  rw [List.chain'_reverse]
  apply chain'_dropWhile
  rw [← List.chain'_reverse]
  simp only [List.reverse_reverse]
  exact chain'_dropWhile pyWs l h

/-- A stripped list does not begin with whitespace. -/
theorem stripChars_head (l : List Char) (c : Char)
    (h : (stripChars l).head? = some c) : pyWs c = false := by
  unfold stripChars rstripChars at h
  obtain ⟨t, ht⟩ := List.dropWhile_suffix (l := (lstripChars l).reverse) pyWs
  have hsplit : lstripChars l =
      ((lstripChars l).reverse.dropWhile pyWs).reverse ++ t.reverse := by
    have := congrArg List.reverse ht
    simpa using this.symm
  rcases hh : ((lstripChars l).reverse.dropWhile pyWs).reverse with _ | ⟨d, u⟩
  · rw [hh] at h; simp at h
  · rw [hh] at h
    simp only [List.head?_cons, Option.some.injEq] at h
    have hdc : (lstripChars l).head? = some d := by
      rw [hsplit, hh]
      simp
    rw [h] at hdc
    exact dropWhile_head_not pyWs l c hdc

/-- A stripped list does not end with whitespace. -/
theorem stripChars_last (l : List Char) (c : Char)
    (h : (stripChars l).getLast? = some c) : pyWs c = false := by
  unfold stripChars rstripChars at h
  rw [List.getLast?_reverse] at h
  exact dropWhile_head_not pyWs (lstripChars l).reverse c h

/-- A list with no whitespace at either end is a fixed point of
stripping. -/
theorem stripChars_id (l : List Char)
    (h1 : ∀ c, l.head? = some c → pyWs c = false)
    (h2 : ∀ c, l.getLast? = some c → pyWs c = false) : stripChars l = l := by
  unfold stripChars rstripChars lstripChars
  rw [dropWhile_id_of_head pyWs l h1]
  rw [dropWhile_id_of_head pyWs l.reverse (fun c hc => h2 c (by simpa using hc))]
  exact List.reverse_reverse l

/-- A list without `'\xa0'` is untouched by the replace step. -/
theorem replaceNbsp_id (l : List Char) (h : ∀ c ∈ l, c ≠ nbsp) :
    replaceNbsp l = l := by
  unfold replaceNbsp
  induction l with
  | nil => rfl
  | cons d rest ih =>
    rw [List.map_cons, if_neg (h d (by simp)), ih (fun c hc => h c (by simp [hc]))]

/-- A list without `'​'` is untouched by the remove step. -/
theorem removeZwsp_id (l : List Char) (h : zwsp ∉ l) : removeZwsp l = l := by
  unfold removeZwsp
  rw [List.filter_eq_self]
  intro a ha
  have hne : a ≠ zwsp := fun he => h (he ▸ ha)
  simp [hne]

/-- The cleanup pipeline is a fixed point on its own output, for inputs
without the zero-width space. -/
theorem clean_fixed_list (l : List Char) (hz : zwsp ∉ l) :
    stripChars (removeZwsp (replaceNbsp (collapseWs
      (stripChars (removeZwsp (replaceNbsp (collapseWs l))))))) =
    stripChars (removeZwsp (replaceNbsp (collapseWs l))) := by
  have hAll : ∀ c ∈ collapseWs l, pyWs c = true → c = ' ' :=
    fun c hc => collapseAux_space l false c hc
  have hChain : List.Chain' noWsPair (collapseWs l) := collapseAux_chain l false
  have hrep : replaceNbsp (collapseWs l) = collapseWs l := by
    apply replaceNbsp_id
    intro c hc he
    have hws : pyWs c = true := by rw [he]; decide
    have := hAll c hc hws
    rw [he] at this
    exact absurd this (by decide)
  have hzw : zwsp ∉ collapseWs l := by
    intro hmem
    rcases collapseAux_mem l false zwsp hmem with h | h
    · exact absurd h (by decide)
    · exact hz h
  have hrem : removeZwsp (collapseWs l) = collapseWs l := removeZwsp_id _ hzw
  rw [hrep, hrem]
  have hyAll : ∀ c ∈ stripChars (collapseWs l), pyWs c = true → c = ' ' :=
    fun c hc => hAll c (stripChars_sub _ c hc)
  have hyChain : List.Chain' noWsPair (stripChars (collapseWs l)) :=
    stripChars_chain _ hChain
  have hcy : collapseWs (stripChars (collapseWs l)) = stripChars (collapseWs l) :=
    collapseAux_id _ hyAll hyChain
  rw [hcy]
  have hyrep : replaceNbsp (stripChars (collapseWs l)) = stripChars (collapseWs l) := by
    apply replaceNbsp_id
    intro c hc he
    have hws : pyWs c = true := by rw [he]; decide
    have := hyAll c hc hws
    rw [he] at this
    exact absurd this (by decide)
  have hyrem : removeZwsp (stripChars (collapseWs l)) = stripChars (collapseWs l) :=
    removeZwsp_id _ (fun hmem => hzw (stripChars_sub _ zwsp hmem))
  rw [hyrep, hyrem]
  exact stripChars_id _ (stripChars_head _) (stripChars_last _)

/-- C6 (amended): on every input containing no zero-width space U+200B,
`clean_text` is idempotent; it is a total function (never raises), and empty
input yields empty output.  (The counterexample shows idempotence fails in
general: removing U+200B after whitespace collapsing can create a new double
space.) -/
theorem c6_idempotent_no_zwsp (x : String) (hx : zwsp ∉ x.data) :
    clean_text (clean_text x) = clean_text x ∧ clean_text "" = "" := by
  refine ⟨?_, rfl⟩
  by_cases h0 : x.data.isEmpty
  · have hcx0 : clean_text x = "" := by rw [clean_text, if_pos h0]
    rw [hcx0]
    rfl
  · have hcx : clean_text x =
        ⟨stripChars (removeZwsp (replaceNbsp (collapseWs x.data)))⟩ := by
      rw [clean_text, if_neg h0]
    rw [hcx]
    by_cases hy : stripChars (removeZwsp (replaceNbsp (collapseWs x.data))) = []
    · rw [clean_text, if_pos (by simp [hy])]
      rw [hy]
    · rw [clean_text, if_neg (by simpa using hy)]
      exact congrArg String.mk (clean_fixed_list x.data hx)

/-- Witness for C6 at a concrete input without U+200B: double cleaning
"  a   b " equals single cleaning. -/
theorem c6_witness :
    clean_text (clean_text "  a   b ") = clean_text "  a   b " ∧ clean_text "" = "" :=
  c6_idempotent_no_zwsp "  a   b " (by decide)

/-- `getLast?` commutes with `map`. -/
theorem getLast?_map_eq {α β : Type} (f : α → β) (l : List α) :
    (l.map f).getLast? = l.getLast?.map f := by
  rw [← List.head?_reverse, ← List.head?_reverse, ← List.map_reverse, List.head?_map]

/-- If the word-bounded pattern matches right after the prefix `a`, the whole
scan succeeds.  The context character at the junction is the last character
of `a` (or the incoming `prev` when `a` is empty). -/
theorem searchAux_append (p : List Char) :
    ∀ (a : List Char) (prev : Option Char) (u : List Char),
      u ≠ [] →
      matchHere p (match a.getLast? with | some c => some c | none => prev) u = true →
      searchWBAux p prev (a ++ u) = true := by
  intro a
  induction a with
  | nil =>
    intro prev u hu hm
    cases u with
    | nil => exact absurd rfl hu
    | cons c rest =>
      rw [List.nil_append, searchWBAux]
      simp only [List.getLast?_nil] at hm
      rw [hm]
      rfl
  | cons x a' ih =>
    intro prev u hu hm
    rw [List.cons_append, searchWBAux]
    have hnext : searchWBAux p (some x) (a' ++ u) = true := by
      apply ih (some x) u hu
      cases a' with
      | nil => simpa using hm
      | cons y a'' =>
        rw [List.getLast?_cons_cons] at hm
        exact hm
    rw [hnext]
    simp

set_option maxRecDepth 8192 in
/-- Every taxonomy term survives the category-name filter. -/
theorem taxonomy_not_category :
    allTaxonomyTerms.all (fun t => !(categoryNames.contains (strLower t))) = true := by
  decide

/-- C5 (amended): for every taxonomy term whose (lowered) first and last
characters are word characters, and every text containing the term (any
letter casing) delimited by spaces or the text's ends, `extract_skills`
includes the term in the returned skill set.  (The restriction to word-edged
terms is forced by the counterexample: `\b` cannot close a pattern like
`c++` whose edge is a non-word character.) -/
theorem c5_taxonomy_hit (s : String) (pre mid post : List Char) (text : String)
    (hs : s ∈ allTaxonomyTerms)
    (hsplit : text.data = pre ++ mid ++ post)
    (hmid : lowerChars mid = lowerChars s.data)
    (hpre : pre.getLast? = none ∨ pre.getLast? = some ' ')
    (hpost : post.head? = none ∨ post.head? = some ' ')
    (hhead : optWord (lowerChars s.data).head? = true)
    (hlast : optWord (lowerChars s.data).getLast? = true) :
    s ∈ (extract_skills text).skills := by
  have hp_ne : lowerChars s.data ≠ [] := by
    intro h
    rw [h] at hhead
    simp [optWord] at hhead
  have hmid_ne : mid ≠ [] := by
    intro h
    rw [h] at hmid
    exact hp_ne (by simpa [lowerChars] using hmid.symm)
  have htext_ne : text.data.isEmpty = false := by
    rw [hsplit]
    cases mid with
    | nil => exact absurd rfl hmid_ne
    | cons c m => simp
  have hsearch : searchWB (lowerChars s.data) (lowerChars text.data) = true := by
    unfold searchWB
    have hlow : lowerChars text.data =
        lowerChars pre ++ (lowerChars s.data ++ lowerChars post) := by
      rw [hsplit, ← hmid]
      unfold lowerChars
      rw [List.map_append, List.map_append, List.append_assoc]
    rw [hlow]
    apply searchAux_append (lowerChars s.data) (lowerChars pre) none
    · intro h
      exact hp_ne (by simpa using congrArg (List.take (lowerChars s.data).length) h)
    · unfold matchHere
      have h1 : (lowerChars s.data).isPrefixOf
          (lowerChars s.data ++ lowerChars post) = true := by
        rw [List.isPrefixOf_iff_prefix]
        exact List.prefix_append _ _
      have h2 : (lowerChars s.data ++ lowerChars post).head? =
          (lowerChars s.data).head? := by
        cases hc : (lowerChars s.data) with
        | nil => exact absurd hc hp_ne
        | cons c m => simp
      have h3 : ((lowerChars s.data ++ lowerChars post).drop
          (lowerChars s.data).length).head? = post.head?.map Char.toLower := by
        rw [List.drop_left]
        unfold lowerChars
        rw [List.head?_map]
      have hctx : optWord (match (lowerChars pre).getLast? with
          | some c => some c | none => none) = false := by
        have hmap : (lowerChars pre).getLast? = pre.getLast?.map Char.toLower :=
          getLast?_map_eq Char.toLower pre
        rcases hpre with h | h <;> rw [hmap, h] <;> decide
      have hpost' : optWord (post.head?.map Char.toLower) = false := by
        rcases hpost with h | h <;> rw [h] <;> decide
      rw [h1, h2, h3, hctx, hhead, hpost', hlast]
      rfl
  have hmem_exact : s ∈ taxonomyExactMatches (lowerChars text.data) := by
    unfold taxonomyExactMatches
    rw [List.mem_flatten]
    unfold allTaxonomyTerms at hs
    rw [List.mem_flatten] at hs
    obtain ⟨terms, hterms, hsin⟩ := hs
    rw [List.mem_map] at hterms
    obtain ⟨cs, hcs, rfl⟩ := hterms
    refine ⟨cs.2.filter (fun skill => searchWB (lowerChars skill.data)
      (lowerChars text.data)), ?_, ?_⟩
    · rw [List.mem_map]
      exact ⟨cs, hcs, rfl⟩
    · rw [List.mem_filter]
      exact ⟨hsin, hsearch⟩
  rw [extract_skills, if_neg (by simp [htext_ne])]
  dsimp only
  rw [List.mem_filter]
  constructor
  · exact List.mem_append_left _ (List.mem_append_left _ hmem_exact)
  · exact List.all_eq_true.mp taxonomy_not_category s hs

/-- Witness for C5 at a concrete input: the taxonomy term "python" occurs in
"I use Python daily" (different casing, space-delimited) and is extracted. -/
theorem c5_witness :
    ("python" : String) ∈ allTaxonomyTerms ∧
    "python" ∈ (extract_skills "I use Python daily").skills :=
  ⟨by decide,
   c5_taxonomy_hit "python" "I use ".data "Python".data " daily".data
     "I use Python daily" (by decide) (by decide) (by decide)
     (Or.inr (by decide)) (Or.inr (by decide)) (by decide) (by decide)⟩

set_option maxRecDepth 16384 in
/-- C5 (counterexample): the taxonomy term "c++" occurs space-delimited in
"use c++ daily", yet `extract_skills` does not return it: the compiled
pattern `\bc\+\+\b` requires a word character after the final `+`, so it can
never match. -/
theorem c5_counterexample :
    "c++" ∈ allTaxonomyTerms ∧
    ("use c++ daily" : String).data = "use ".data ++ "c++".data ++ " daily".data ∧
    ("use ".data).getLast? = some ' ' ∧
    (" daily".data).head? = some ' ' ∧
    "c++" ∉ (extract_skills "use c++ daily").skills := by
  decide

/-- Stripping is idempotent. -/
theorem stripChars_idem (l : List Char) : stripChars (stripChars l) = stripChars l :=
  stripChars_id _ (stripChars_head l) (stripChars_last l)

/-- C10 (confirmed): `extract_requirements` returns at most 10 strings, every
one of them stripped (a fixed point of `strip`) and longer than 5
characters. -/
theorem c10_requirements_shape (text : String) :
    (extract_requirements text).length ≤ 10 ∧
    ∀ r ∈ extract_requirements text, stripChars r.data = r.data ∧ r.data.length > 5 := by
  unfold extract_requirements
  refine ⟨List.length_take_le 10 _, ?_⟩
  intro r hr
  have hr' := List.mem_of_mem_take hr
  rw [List.mem_flatten] at hr'
  obtain ⟨inner, hinner, hrin⟩ := hr'
  rw [List.mem_map] at hinner
  obtain ⟨headers, _, rfl⟩ := hinner
  rw [List.mem_flatten] at hrin
  obtain ⟨itemsList, h2, hr3⟩ := hrin
  rw [List.mem_map] at h2
  obtain ⟨m, _, rfl⟩ := h2
  rw [List.mem_filterMap] at hr3
  obtain ⟨item, _, heq⟩ := hr3
  dsimp only at heq
  by_cases hcond : stripChars item ≠ [] ∧ (stripChars item).length > 5
  · rw [if_pos hcond] at heq
    simp only [Option.some.injEq] at heq
    subst heq
    exact ⟨stripChars_idem item, hcond.2⟩
  · rw [if_neg hcond] at heq
    exact absurd heq (by simp)

/-- Witness for C10 at a concrete input: one requirement is extracted, and
it is stripped and longer than 5 characters. -/
theorem c10_witness :
    (extract_requirements "Requirements:\n- experience with python\n\n").length ≤ 10 ∧
    (stripChars ("experience with python" : String).data =
        ("experience with python" : String).data ∧
      ("experience with python" : String).data.length > 5) :=
  ⟨(c10_requirements_shape "Requirements:\n- experience with python\n\n").1,
   (c10_requirements_shape "Requirements:\n- experience with python\n\n").2
     "experience with python" (by decide)⟩

end FitMyCV
